import Mathlib

/-!
Verification development for a legacy tabular-data converter
(`convert_dat_to_excel.py`, `convert_dbf_to_excel.py`, `dat_diagnostic_tool.py`).

Strings are modelled as `List Char`.  External collaborators (the pandas
table library, the chardet byte classifier, the dbfread record iterator and
the file system) are modelled as explicit oracles / environments: the code
under verification is the decision logic written in the repository itself.
-/

namespace DatToExcel

/-! ## Generic string helpers

`dropLeading` models Python's removal of leading characters satisfying a
predicate; `stripBoth p l` models `str.strip(chars)` (drop leading, then
trailing, characters satisfying `p`).
-/

/-- Drop the longest prefix of characters satisfying `p` (the behaviour of
Python `str.lstrip` restricted to a character class). -/
def dropLeading (p : Char → Bool) : List Char → List Char
  | [] => []
  | c :: l => if p c then dropLeading p l else c :: l

/-- Python `str.strip` for the character class `p`: drop leading matching
characters, then trailing ones (implemented by reversing). -/
def stripBoth (p : Char → Bool) (l : List Char) : List Char :=
  (dropLeading p (dropLeading p l).reverse).reverse

/-- The whitespace class stripped by Python `str.strip()` (ASCII fragment;
the repository's data is single-byte text). -/
def pyIsSpace (c : Char) : Bool :=
  c == ' ' || c == '\t' || c == '\n' || c == '\r' || c == '\x0b' || c == '\x0c'

/-- Python `str.strip()` on a value, as used by
`convert_dat_to_excel.py:186` (`df[col].str.strip()`). -/
def pyStrip (l : List Char) : List Char := stripBoth pyIsSpace l

theorem dropLeading_head_false (p : Char → Bool) :
    ∀ {l : List Char} {a : Char} {t : List Char},
      dropLeading p l = a :: t → p a = false := by
  intro l
  induction l with
  | nil => intro a t h; simp [dropLeading] at h
  | cons c l ih =>
    intro a t h
    by_cases hc : p c
    · rw [dropLeading, if_pos hc] at h
      exact ih h
    · rw [dropLeading, if_neg hc] at h
      cases h
      simpa using hc

theorem dropLeading_eq_self (p : Char → Bool) {l : List Char}
    (h : ∀ a t, l = a :: t → p a = false) : dropLeading p l = l := by
  cases l with
  | nil => rfl
  | cons c l => rw [dropLeading, if_neg (by simp [h c l rfl])]

theorem dropLeading_mem (p : Char → Bool) :
    ∀ {l : List Char} {x : Char}, x ∈ dropLeading p l → x ∈ l := by
  intro l
  induction l with
  | nil => intro x h; simp [dropLeading] at h
  | cons c l ih =>
    intro x h
    by_cases hc : p c
    · rw [dropLeading, if_pos hc] at h
      exact List.mem_cons_of_mem c (ih h)
    · rw [dropLeading, if_neg hc] at h
      exact h

theorem dropLeading_append (p : Char → Bool) :
    ∀ l : List Char, ∃ pre, l = pre ++ dropLeading p l := by
  intro l
  induction l with
  | nil => exact ⟨[], rfl⟩
  | cons c l ih =>
    by_cases hc : p c
    · obtain ⟨pre, hpre⟩ := ih
      exact ⟨c :: pre, by rw [dropLeading, if_pos hc]; simpa using hpre⟩
    · exact ⟨[], by rw [dropLeading, if_neg hc]; rfl⟩

theorem stripBoth_head_false (p : Char → Bool) {l : List Char} {a : Char} {t : List Char}
    (h : stripBoth p l = a :: t) : p a = false := by
  obtain ⟨pre, hpre⟩ := dropLeading_append p (dropLeading p l).reverse
  have hl : dropLeading p l = a :: (t ++ pre.reverse) := by
    have h2 : (dropLeading p l).reverse.reverse
        = (pre ++ dropLeading p (dropLeading p l).reverse).reverse := by rw [← hpre]
    rw [List.reverse_reverse, List.reverse_append] at h2
    rw [h2]
    unfold stripBoth at h
    rw [h]
    simp
  exact dropLeading_head_false p hl

theorem stripBoth_reverse_head_false (p : Char → Bool) {l : List Char} {a : Char}
    {t : List Char} (h : (stripBoth p l).reverse = a :: t) : p a = false := by
  unfold stripBoth at h
  rw [List.reverse_reverse] at h
  exact dropLeading_head_false p h

theorem stripBoth_eq_self (p : Char → Bool) {l : List Char}
    (hL : ∀ a t, l = a :: t → p a = false)
    (hT : ∀ a t, l.reverse = a :: t → p a = false) : stripBoth p l = l := by
  unfold stripBoth
  rw [dropLeading_eq_self p hL, dropLeading_eq_self p hT, List.reverse_reverse]

theorem stripBoth_idem (p : Char → Bool) (l : List Char) :
    stripBoth p (stripBoth p l) = stripBoth p l :=
  stripBoth_eq_self p (fun _ _ h => stripBoth_head_false p h)
    (fun _ _ h => stripBoth_reverse_head_false p h)

theorem stripBoth_mem (p : Char → Bool) {l : List Char} {x : Char}
    (h : x ∈ stripBoth p l) : x ∈ l := by
  unfold stripBoth at h
  rw [List.mem_reverse] at h
  have h2 := dropLeading_mem p h
  rw [List.mem_reverse] at h2
  exact dropLeading_mem p h2

theorem pyStrip_idem (l : List Char) : pyStrip (pyStrip l) = pyStrip l :=
  stripBoth_idem pyIsSpace l

/-! ## Data model: tables

A pandas DataFrame column is either an object (text) column — every cell a
string or NaN — or a numeric column of inferred numeric type `α` (the
numeric cell type produced by `pd.to_numeric` is external, so definitions
are parametric in `α` and in the parse function).  A table is an ordered
list of (column name, column) pairs; `clean_data` touches names never, and
each column independently.
-/

/-- One DataFrame column: `obj` is pandas object dtype (strings and NaN as
`Option`), `numeric` a numeric dtype. -/
inductive Col (α : Type) where
  | obj (vals : List (Option (List Char)))
  | numeric (vals : List (Option α))
deriving DecidableEq

/-- `convert_dat_to_excel.py:184-186`: trim leading/trailing whitespace on
every text column (`df[col].str.strip()`); numeric columns untouched. -/
def stripCol {α : Type} : Col α → Col α
  | .obj vs => .obj (vs.map (Option.map pyStrip))
  | .numeric vs => .numeric vs

/-- `convert_dat_to_excel.py:189`: `df.replace('', np.nan)` — empty strings
become NaN (only text cells can hold the empty string). -/
def emptyToNull {α : Type} : Col α → Col α
  | .obj vs => .obj (vs.map (fun v => if v = some [] then none else v))
  | .numeric vs => .numeric vs

/-- `convert_dat_to_excel.py:192-202`: numeric columns are skipped
(`is_numeric_dtype` → `continue`); for an object column,
`numeric_series = pd.to_numeric(df[col], errors='coerce')` parses each cell
(NaN cells stay NaN), and the column is replaced by the parse when
`numeric_series.notna().sum() / len(df) > 0.5`.  The denominator is
`len(df)` — the total row count.  (With zero rows the division raises and
the bare `except: pass` leaves the column unchanged; `2 * count > 0` is
false, so the guard below also leaves it unchanged.) -/
def coerceNumericCol {α : Type} (parse : List Char → Option α) : Col α → Col α
  | .obj vs =>
    let parsed := vs.map (fun v => v.bind parse)
    if 2 * parsed.countP (fun v => v.isSome) > vs.length then .numeric parsed else .obj vs
  | .numeric vs => .numeric vs

/-- The per-column action of `clean_data` (`convert_dat_to_excel.py:181-204`):
strip, replace empty by NaN, then majority-vote numeric coercion. -/
def cleanCol {α : Type} (parse : List Char → Option α) (c : Col α) : Col α :=
  coerceNumericCol parse (emptyToNull (stripCol c))

/-- `clean_data` (`convert_dat_to_excel.py:181-204`): basic cleaning, applied
to every column of the table independently; column names untouched. -/
def clean_data {α : Type} (parse : List Char → Option α)
    (t : List (List Char × Col α)) : List (List Char × Col α) :=
  t.map (fun p => (p.1, cleanCol parse p.2))

/-- The object-column values after the first two cleaning steps (trim, then
empty string to NaN) — the values the coercion vote is taken over. -/
def prepObjVals (vs : List (Option (List Char))) : List (Option (List Char)) :=
  (vs.map (Option.map pyStrip)).map (fun v => if v = some [] then none else v)

/-- The elementwise action of the first two cleaning steps on one cell:
NaN stays NaN, a string is trimmed and becomes NaN when empty. -/
def prepElem (v : Option (List Char)) : Option (List Char) :=
  match v with
  | none => none
  | some s => if pyStrip s = [] then none else some (pyStrip s)

/-- A concrete numeric parse (unsigned decimal integers) used to instantiate
the parametric `pd.to_numeric` model on concrete witnesses. -/
def natParse (s : List Char) : Option Nat :=
  if s ≠ [] ∧ s.all Char.isDigit then
    some (s.foldl (fun n c => 10 * n + (c.toNat - 48)) 0)
  else none

/-! ## Column-name sanitization (`clean_for_excel`, names part) -/

/-- The character class kept by the regex `[^a-zA-Z0-9_]` in
`convert_dat_to_excel.py:216` (ASCII letters, digits, underscore). -/
def isWordChar (c : Char) : Bool := c.isAlpha || c.isDigit || c == '_'

/-- `re.sub` replacement: characters outside the class become `_`. -/
def sanChar (c : Char) : Char := if isWordChar c then c else '_'

/-- The fallback name handed to empty sanitization results
(`convert_dat_to_excel.py:221`). -/
def columnFallbackName : List Char := ['C', 'o', 'l', 'u', 'm', 'n']

/-- Column-name sanitization from `clean_for_excel`
(`convert_dat_to_excel.py:211-222`): replace characters outside
`[A-Za-z0-9_]` by underscore, strip leading/trailing underscores, and use
the name Column when nothing remains. -/
def clean_col_name (name : List Char) : List Char :=
  let s := stripBoth (fun c => c == '_') (name.map sanChar)
  if s = [] then columnFallbackName else s

/-! ## Delimiter detection (`SybaseDatReader.detect_delimiter`) -/

/-- The five fixed delimiter candidates, in enumeration order
(`convert_dat_to_excel.py:56`). -/
def delimiters : List Char := ['\t', '|', ',', ';', '\x01']

/-- `line.count(delimiter)` — occurrences of `d` in one line. -/
def lineCount (d : Char) (l : List Char) : Nat := l.countP (fun c => c == d)

/-- Total occurrences of candidate `d` over the first `m` sampled lines
(the loop `convert_dat_to_excel.py:59-64` accumulates exactly this sum). -/
def delimTotal (raw : List (List Char)) (m : Nat) (d : Char) : Nat :=
  ((raw.take m).map (lineCount d)).sum

/-- One step of Python `max(...)`: the running best is replaced only on a
strictly greater count, so the first maximum in enumeration order wins. -/
def bestStep (b x : Char × Nat) : Char × Nat := if x.2 > b.2 then x else b

/-- `detect_delimiter` (`convert_dat_to_excel.py:53-74`): count each
candidate over at most `sample_lines` lines, take the first maximum, and
return it when its total is positive, else nothing. -/
def detect_delimiter (raw : List (List Char)) (sample_lines : Nat) : Option Char :=
  let counts := delimiters.map (fun d => (d, delimTotal raw sample_lines d))
  match counts with
  | [] => none
  | c :: cs =>
    let best := cs.foldl bestStep c
    if best.2 > 0 then some best.1 else none

/-! ## Fixed-width detection (`SybaseDatReader._detect_fixed_widths`) -/

/-- `line.rstrip('\n')`: remove all trailing newline characters. -/
def rstripNewlines (l : List Char) : List Char :=
  (dropLeading (fun c => c == '\n') l.reverse).reverse

/-- `pos < len(line) and line[pos] == ' '` for one line. -/
def hasSpaceAt (l : List Char) (pos : Nat) : Bool :=
  match l.get? pos with
  | some c => c == ' '
  | none => false

/-- The width-accumulating loop body (`convert_dat_to_excel.py:168-171`):
a boundary is kept only when the gap since the previous kept boundary
exceeds one character. -/
def widthAccum (acc : List Nat × Nat) (pos : Nat) : List Nat × Nat :=
  if pos - acc.2 > 1 then (acc.1 ++ [pos - acc.2], pos) else acc

/-- The scan `convert_dat_to_excel.py:160-163`: the positions, up to the
longest line's length, at which every sampled line has a space. -/
def sharedSpacePositions (lines : List (List Char)) : List Nat :=
  (List.range (lines.foldl (fun m l => max m l.length) 0)).filter
    (fun pos => lines.all (fun l => hasSpaceAt l pos))

/-- `_detect_fixed_widths` (`convert_dat_to_excel.py:147-178`): over at most
`sample_lines` lines (trailing newlines removed), find the positions where
every line has a space, fold them into widths, and append a final
open-ended width (`None`).  Returns nothing when there are no lines or no
shared space column. -/
def detect_fixed_widths (raw : List (List Char)) (sample_lines : Nat) :
    Option (List (Option Nat)) :=
  let lines := (raw.take sample_lines).map rstripNewlines
  if lines.isEmpty then none
  else
    let spacePositions := sharedSpacePositions lines
    if spacePositions.isEmpty then none
    else
      let widths := (spacePositions.foldl widthAccum ([], 0)).1
      some (widths.map some ++ [none])

/-- The fixed-width sample of end-to-end scenario 3: the file contents
AA&nbsp;&nbsp;&nbsp;1 / BB&nbsp;&nbsp;&nbsp;2, as the raw lines produced by
iterating the file. -/
def sampleFixedWidthLines : List (List Char) :=
  [['A', 'A', ' ', ' ', ' ', '1', '\n'], ['B', 'B', ' ', ' ', ' ', '2', '\n']]

/-! ## Encoding detection (`SybaseDatReader.detect_encoding`)

The chardet classifier is an external collaborator; a run of it is an
oracle value: either a result (an optional label plus a confidence) or a
raised exception.
-/

/-- Errors raised by the Python code or its collaborators.
`noReadableFormat` models the
ValueError raised at `convert_dat_to_excel.py:145` when every reading
strategy failed; `exnTag` stands for any other exception. -/
inductive PyErr where
  | noReadableFormat
  | exnTag (n : Nat)
deriving DecidableEq

/-- One run of `chardet.detect` on the sampled bytes: either a result
dictionary (optional encoding label, confidence) or an exception. -/
inductive ChardetRun where
  | ok (encoding : Option (List Char)) (confidence : ℚ)
  | raised (e : PyErr)

/-- The byte-preserving single-byte fallback label
(`convert_dat_to_excel.py:48,51`). -/
def latin1 : List Char := ['l', 'a', 't', 'i', 'n', '-', '1']

/-- `detect_encoding` (`convert_dat_to_excel.py:34-51`): return the
classifier label when it is non-null and its confidence exceeds 0.7;
otherwise — including any exception — return latin-1. -/
def detect_encoding (run : ChardetRun) : List Char :=
  match run with
  | .raised _ => latin1
  | .ok det conf =>
    match det with
    | some enc => if conf > 7 / 10 then enc else latin1
    | none => latin1

/-! ## Auto-read orchestration (`SybaseDatReader.auto_read`) -/

/-- The environment of one `auto_read` call: the encoding that
`detect_encoding` would produce, and the two reading strategies as
functions of the encoding in effect, each succeeding with a table or
raising. -/
structure AutoReadEnv (τ : Type) where
  detectedEncoding : List Char
  readDelimited : List Char → Except PyErr τ
  readFixedWidth : List Char → Except PyErr τ

/-- `auto_read` (`convert_dat_to_excel.py:126-145`): detect the encoding
when none is known, then try the delimited reader, on any failure the
fixed-width reader, and raise `noReadableFormat` when both fail. -/
def auto_read {τ : Type} (env : AutoReadEnv τ) (encoding : Option (List Char)) :
    Except PyErr τ :=
  let enc := encoding.getD env.detectedEncoding
  match env.readDelimited enc with
  | .ok t => .ok t
  | .error _ =>
    match env.readFixedWidth enc with
    | .ok t => .ok t
    | .error _ => .error .noReadableFormat

/-! ## Spreadsheet export (`export_to_excel`) and the CSV fallback path -/

/-- The extension replaced by the CSV fallback. -/
def xlsxExt : List Char := ['.', 'x', 'l', 's', 'x']

/-- The replacement extension of the fallback text file. -/
def csvExt : List Char := ['.', 'c', 's', 'v']

/-- The encoding label passed to `df.to_csv`
(`convert_dat_to_excel.py:284`): UTF-8 with a byte-order mark. -/
def utf8sig : List Char := ['u', 't', 'f', '-', '8', '-', 's', 'i', 'g']

/-- Does the list start with the five characters of `.xlsx`? -/
def startsWithXlsx (l : List Char) : Bool :=
  match l with
  | c1 :: c2 :: c3 :: c4 :: c5 :: _ =>
    c1 == '.' && c2 == 'x' && c3 == 'l' && c4 == 's' && c5 == 'x'
  | _ => false

/-- Left-to-right scan of Python `str.replace('.xlsx', '.csv')`, with an
explicit fuel argument to keep the recursion structural; `pyReplaceXlsxCsv`
supplies fuel equal to the scanned length, which is exact. -/
def replaceGo : Nat → List Char → List Char
  | 0, l => l
  | _ + 1, [] => []
  | fuel + 1, c :: rest =>
    if startsWithXlsx (c :: rest) then csvExt ++ replaceGo fuel (rest.drop 4)
    else c :: replaceGo fuel rest

/-- `output_path.replace('.xlsx', '.csv')` (`convert_dat_to_excel.py:282`
and `convert_dbf_to_excel.py:138`): every occurrence of `.xlsx` becomes
`.csv`; a path with no occurrence is returned unchanged. -/
def pyReplaceXlsxCsv (l : List Char) : List Char := replaceGo l.length l

/-- Does `.xlsx` occur anywhere in the list? -/
def hasSubXlsx : List Char → Bool
  | [] => false
  | c :: rest => startsWithXlsx (c :: rest) || hasSubXlsx rest

/-- The outcomes of the three write attempts inside `export_to_excel`, as
an oracle: the spreadsheet write with a named sheet, the plain spreadsheet
write, and the CSV write (which succeeds for a writable directory). -/
structure ExportEnv where
  toExcelNamed : Except PyErr Unit
  toExcelBasic : Except PyErr Unit
  toCsv : Except PyErr Unit

/-- What `export_to_excel` produced: which tier succeeded, at which path,
and (for the text fallback) with which encoding label. -/
inductive ExportOutcome where
  | excelNamedSheet (path : List Char)
  | excelBasic (path : List Char)
  | csvFallback (path : List Char) (encoding : List Char)
deriving DecidableEq

/-- `export_to_excel` (`convert_dat_to_excel.py:258-286`): try the
spreadsheet write with the named sheet; on any exception retry without the
sheet name; on a second exception write a CSV at
`output_path.replace('.xlsx', '.csv')` with utf-8-sig encoding.  The CSV
write itself is not guarded, so its exception would propagate. -/
def export_to_excel (env : ExportEnv) (output_path : List Char) :
    Except PyErr ExportOutcome :=
  match env.toExcelNamed with
  | .ok _ => .ok (.excelNamedSheet output_path)
  | .error _ =>
    match env.toExcelBasic with
    | .ok _ => .ok (.excelBasic output_path)
    | .error _ =>
      match env.toCsv with
      | .ok _ => .ok (.csvFallback (pyReplaceXlsxCsv output_path) utf8sig)
      | .error e => .error e

/-! ## Indexed-binary (DBF) reading (`convert_dbf_properly`) -/

/-- The outcome of fetching and converting one declared field of one
record via the dbfread collaborator: a value (possibly null), or a raised
conversion exception. -/
inductive FieldOutcome (α : Type) where
  | ok (v : Option α)
  | raised (tag : Nat)

/-- One retained per-field error report: field name, record index, and a
tag standing for the exception text. -/
structure FieldErr where
  fieldName : List Char
  recordIndex : Nat
  tag : Nat
deriving DecidableEq

/-- The retention bound of the error sample
(`if len(errors) < 5` at `convert_dbf_to_excel.py:58,64`). -/
def maxRetainedErrors : Nat := 5

/-- The value a field contributes to the record dictionary: its converted
value, or null when the conversion raised
(`convert_dbf_to_excel.py:49-59`). -/
def fieldValue {α : Type} (o : FieldOutcome α) : Option α :=
  match o with
  | .ok v => v
  | .raised _ => none

/-- The inner field loop of `convert_dbf_properly`
(`convert_dbf_to_excel.py:47-59`): every declared field is given a value —
null on a raised conversion — and an error entry is appended only while
fewer than `maxRetainedErrors` are retained. -/
def convertFields {α : Type} (record : List Char → FieldOutcome α) (recIdx : Nat) :
    List (List Char) → List FieldErr → List (List Char × Option α) × List FieldErr
  | [], errs => ([], errs)
  | f :: fs, errs =>
    match record f with
    | .ok v =>
      let r := convertFields record recIdx fs errs
      ((f, v) :: r.1, r.2)
    | .raised t =>
      let errs1 := if errs.length < maxRetainedErrors then errs ++ [⟨f, recIdx, t⟩] else errs
      let r := convertFields record recIdx fs errs1
      ((f, none) :: r.1, r.2)

/-- The record loop of `convert_dbf_properly`
(`convert_dbf_to_excel.py:41-65`): every record is appended (the per-field
handler absorbs all conversion failures), threading the error sample. -/
def convertRecords {α : Type} (fields : List (List Char)) :
    List (List Char → FieldOutcome α) → Nat → List FieldErr →
      List (List (List Char × Option α)) × List FieldErr
  | [], _, errs => ([], errs)
  | r :: rs, i, errs =>
    let c := convertFields r i fields errs
    let rest := convertRecords fields rs (i + 1) c.2
    (c.1 :: rest.1, rest.2)

/-- `convert_dbf_properly`, reading part (`convert_dbf_to_excel.py:41-72`):
convert every record of the table, starting with an empty error sample. -/
def convert_dbf_properly {α : Type} (fields : List (List Char))
    (recs : List (List Char → FieldOutcome α)) :
    List (List (List Char × Option α)) × List FieldErr :=
  convertRecords fields recs 0 []

/-! ## Lemmas: first-maximum fold (delimiter detection) -/

theorem foldl_bestStep_le :
    ∀ (l : List (Char × Nat)) (b : Char × Nat),
      (∀ x ∈ l, x.2 ≤ b.2) → l.foldl bestStep b = b := by
  intro l
  induction l with
  | nil => intro b _; rfl
  | cons a l ih =>
    intro b h
    rw [List.foldl_cons]
    have ha : ¬a.2 > b.2 := by
      have := h a (List.mem_cons_self a l)
      omega
    rw [bestStep, if_neg ha]
    exact ih b (fun x hx => h x (List.mem_cons_of_mem a hx))

theorem foldl_bestStep_mem :
    ∀ (l : List (Char × Nat)) (b : Char × Nat),
      l.foldl bestStep b = b ∨ l.foldl bestStep b ∈ l := by
  intro l
  induction l with
  | nil => intro b; left; rfl
  | cons a l ih =>
    intro b
    rw [List.foldl_cons]
    rcases ih (bestStep b a) with h | h
    · rw [h, bestStep]
      by_cases ha : a.2 > b.2
      · right; rw [if_pos ha]; exact List.mem_cons_self a l
      · left; rw [if_neg ha]
    · right; exact List.mem_cons_of_mem a h

theorem foldl_first_max :
    ∀ (pre : List (Char × Nat)) (b0 : Char × Nat) (d : Char × Nat)
      (post : List (Char × Nat)),
      (∀ x ∈ b0 :: pre, x.2 < d.2) → (∀ x ∈ post, x.2 ≤ d.2) →
      (pre ++ d :: post).foldl bestStep b0 = d := by
  intro pre
  induction pre with
  | nil =>
    intro b0 d post hpre hpost
    rw [List.nil_append, List.foldl_cons]
    have hb : d.2 > b0.2 := hpre b0 (List.mem_cons_self b0 [])
    rw [bestStep, if_pos hb]
    exact foldl_bestStep_le post d hpost
  | cons a pre ih =>
    intro b0 d post hpre hpost
    rw [List.cons_append, List.foldl_cons]
    apply ih (bestStep b0 a) d post _ hpost
    intro x hx
    rcases List.mem_cons.mp hx with hx | hx
    · subst hx
      rw [bestStep]
      by_cases ha : a.2 > b0.2
      · rw [if_pos ha]
        exact hpre a (by simp)
      · rw [if_neg ha]
        exact hpre b0 (by simp)
    · exact hpre x (by simp [hx])

theorem detect_delimiter_eq (raw : List (List Char)) (m : Nat) :
    detect_delimiter raw m =
      (if (([('|', delimTotal raw m '|'), (',', delimTotal raw m ','),
            (';', delimTotal raw m ';'), ('\x01', delimTotal raw m '\x01')].foldl
          bestStep ('\t', delimTotal raw m '\t')).2 > 0) then
        some (([('|', delimTotal raw m '|'), (',', delimTotal raw m ','),
            (';', delimTotal raw m ';'), ('\x01', delimTotal raw m '\x01')].foldl
          bestStep ('\t', delimTotal raw m '\t')).1)
      else none) := rfl

theorem detect_delimiter_first_max (raw : List (List Char)) (m : Nat) (d : Char)
    (hd : d ∈ delimiters) (h0 : 0 < delimTotal raw m d)
    (hearly : ∀ e, e ∈ delimiters → List.indexOf e delimiters < List.indexOf d delimiters →
      delimTotal raw m e < delimTotal raw m d)
    (hlate : ∀ e, e ∈ delimiters → delimTotal raw m e ≤ delimTotal raw m d) :
    detect_delimiter raw m = some d := by
  rw [detect_delimiter_eq]
  have hd5 : d = '\t' ∨ d = '|' ∨ d = ',' ∨ d = ';' ∨ d = '\x01' := by
    simpa [delimiters] using hd
  rcases hd5 with rfl | rfl | rfl | rfl | rfl
  · rw [foldl_bestStep_le _ _ ?_]
    · rw [if_pos h0]
    · intro x hx
      simp only [List.mem_cons, List.not_mem_nil, or_false] at hx
      rcases hx with rfl | rfl | rfl | rfl <;> exact hlate _ (by decide)
  · have hf := foldl_first_max [] ('\t', delimTotal raw m '\t') ('|', delimTotal raw m '|')
      [(',', delimTotal raw m ','), (';', delimTotal raw m ';'),
       ('\x01', delimTotal raw m '\x01')]
      (by
        intro x hx
        simp only [List.mem_cons, List.not_mem_nil, or_false] at hx
        subst hx
        exact hearly '\t' (by decide) (by decide))
      (by
        intro x hx
        simp only [List.mem_cons, List.not_mem_nil, or_false] at hx
        rcases hx with rfl | rfl | rfl <;> exact hlate _ (by decide))
    simp only [List.nil_append] at hf
    rw [hf, if_pos h0]
  · have hf := foldl_first_max [('|', delimTotal raw m '|')] ('\t', delimTotal raw m '\t')
      (',', delimTotal raw m ',')
      [(';', delimTotal raw m ';'), ('\x01', delimTotal raw m '\x01')]
      (by
        intro x hx
        simp only [List.mem_cons, List.not_mem_nil, or_false] at hx
        rcases hx with rfl | rfl <;> exact hearly _ (by decide) (by decide))
      (by
        intro x hx
        simp only [List.mem_cons, List.not_mem_nil, or_false] at hx
        rcases hx with rfl | rfl <;> exact hlate _ (by decide))
    simp only [List.cons_append, List.nil_append] at hf
    rw [hf, if_pos h0]
  · have hf := foldl_first_max [('|', delimTotal raw m '|'), (',', delimTotal raw m ',')]
      ('\t', delimTotal raw m '\t') (';', delimTotal raw m ';')
      [('\x01', delimTotal raw m '\x01')]
      (by
        intro x hx
        simp only [List.mem_cons, List.not_mem_nil, or_false] at hx
        rcases hx with rfl | rfl | rfl <;> exact hearly _ (by decide) (by decide))
      (by
        intro x hx
        simp only [List.mem_cons, List.not_mem_nil, or_false] at hx
        subst hx
        exact hlate _ (by decide))
    simp only [List.cons_append, List.nil_append] at hf
    rw [hf, if_pos h0]
  · have hf := foldl_first_max
      [('|', delimTotal raw m '|'), (',', delimTotal raw m ','), (';', delimTotal raw m ';')]
      ('\t', delimTotal raw m '\t') ('\x01', delimTotal raw m '\x01') []
      (by
        intro x hx
        simp only [List.mem_cons, List.not_mem_nil, or_false] at hx
        rcases hx with rfl | rfl | rfl | rfl <;> exact hearly _ (by decide) (by decide))
      (by intro x hx; simp at hx)
    simp only [List.cons_append, List.nil_append] at hf
    rw [hf, if_pos h0]

theorem detect_delimiter_all_zero (raw : List (List Char)) (m : Nat)
    (h : ∀ d, d ∈ delimiters → delimTotal raw m d = 0) :
    detect_delimiter raw m = none := by
  rw [detect_delimiter_eq]
  rcases foldl_bestStep_mem
      [('|', delimTotal raw m '|'), (',', delimTotal raw m ','),
       (';', delimTotal raw m ';'), ('\x01', delimTotal raw m '\x01')]
      ('\t', delimTotal raw m '\t') with hb | hb
  · rw [hb]
    have h0 : delimTotal raw m '\t' = 0 := h '\t' (by decide)
    simp [h0]
  · simp only [List.mem_cons, List.not_mem_nil, or_false] at hb
    rcases hb with hb | hb | hb | hb <;> rw [hb]
    · have h0 : delimTotal raw m '|' = 0 := h '|' (by decide)
      simp [h0]
    · have h0 : delimTotal raw m ',' = 0 := h ',' (by decide)
      simp [h0]
    · have h0 : delimTotal raw m ';' = 0 := h ';' (by decide)
      simp [h0]
    · have h0 : delimTotal raw m '\x01' = 0 := h '\x01' (by decide)
      simp [h0]

/-- C3: over at most `sample_lines` lines, `detect_delimiter` sums per-line
occurrence counts of the five fixed candidates; a strictly positive unique
maximum is returned; all-zero totals give none; and ties are broken by
enumeration order (a candidate wins whenever every earlier candidate counts
strictly less and no candidate counts more), with tab enumerated first. -/
theorem detect_delimiter_spec (raw : List (List Char)) (m : Nat) :
    (∀ d, d ∈ delimiters → 0 < delimTotal raw m d →
        (∀ e, e ∈ delimiters → e ≠ d → delimTotal raw m e < delimTotal raw m d) →
        detect_delimiter raw m = some d)
    ∧ ((∀ d, d ∈ delimiters → delimTotal raw m d = 0) → detect_delimiter raw m = none)
    ∧ (∀ d, d ∈ delimiters → 0 < delimTotal raw m d →
        (∀ e, e ∈ delimiters → List.indexOf e delimiters < List.indexOf d delimiters →
          delimTotal raw m e < delimTotal raw m d) →
        (∀ e, e ∈ delimiters → delimTotal raw m e ≤ delimTotal raw m d) →
        detect_delimiter raw m = some d) := by
  refine ⟨?_, detect_delimiter_all_zero raw m, detect_delimiter_first_max raw m⟩
  intro d hd h0 huniq
  apply detect_delimiter_first_max raw m d hd h0
  · intro e he hidx
    have hne : e ≠ d := by
      intro he'
      subst he'
      exact Nat.lt_irrefl _ hidx
    exact huniq e he hne
  · intro e he
    by_cases hne : e = d
    · subst hne; exact Nat.le_refl _
    · exact Nat.le_of_lt (huniq e he hne)

/-- Witness for C3 at the concrete single line a TAB b TAB c: tab has the
strictly positive unique maximum count, and is detected. -/
theorem detect_delimiter_spec_witness :
    detect_delimiter [['a', '\t', 'b', '\t', 'c']] 10 = some '\t' :=
  (detect_delimiter_spec [['a', '\t', 'b', '\t', 'c']] 10).1 '\t' (by decide) (by decide)
    (by
      intro e he hne
      have h5 : e = '\t' ∨ e = '|' ∨ e = ',' ∨ e = ';' ∨ e = '\x01' := by
        simpa [delimiters] using he
      rcases h5 with rfl | rfl | rfl | rfl | rfl
      · exact absurd rfl hne
      all_goals decide)

/-! ## Lemmas: fixed-width boundary fold -/

theorem widthAccum_all_gt :
    ∀ (ps : List Nat) (acc : List Nat × Nat),
      (∀ w ∈ acc.1, 1 < w) → ∀ w ∈ (ps.foldl widthAccum acc).1, 1 < w := by
  intro ps
  induction ps with
  | nil => intro acc h; exact h
  | cons p ps ih =>
    intro acc h
    rw [List.foldl_cons]
    apply ih
    rw [widthAccum]
    by_cases hp : p - acc.2 > 1
    · rw [if_pos hp]
      intro w hw
      rcases List.mem_append.mp hw with hw | hw
      · exact h w hw
      · simp only [List.mem_singleton] at hw
        subst hw
        exact hp
    · rw [if_neg hp]
      exact h

theorem detect_fixed_widths_shape (raw : List (List Char)) (m : Nat)
    (widths : List (Option Nat)) (h : detect_fixed_widths raw m = some widths) :
    ∃ core : List Nat, widths = core.map some ++ [none] ∧ ∀ w ∈ core, 1 < w := by
  unfold detect_fixed_widths at h
  by_cases h1 : ((raw.take m).map rstripNewlines).isEmpty
  · rw [if_pos h1] at h
    simp at h
  · rw [if_neg h1] at h
    by_cases h2 : (sharedSpacePositions ((raw.take m).map rstripNewlines)).isEmpty
    · rw [if_pos h2] at h
      simp at h
    · rw [if_neg h2] at h
      have h3 := Option.some.inj h
      refine ⟨((sharedSpacePositions ((raw.take m).map rstripNewlines)).foldl
          widthAccum ([], 0)).1, h3.symm, ?_⟩
      exact widthAccum_all_gt _ ([], 0) (by simp)

/-- C2 (amended): on the scenario-3 sample the shared space run is at
positions 2, 3 and 4, so `_detect_fixed_widths` keeps the boundaries at
positions 2 and 4 — widths [2, 2] plus the final open-ended width — i.e.
three columns per row (the all-space run becomes an empty middle column),
not two.  The general rule of the claim does hold: whenever the function
returns widths, they consist of kept widths each exceeding 1 character
(the gap rule) followed by exactly one final open-ended width. -/
theorem detect_fixed_widths_amended :
    (∀ raw m widths, detect_fixed_widths raw m = some widths →
        ∃ core : List Nat, widths = core.map some ++ [none] ∧ ∀ w ∈ core, 1 < w)
    ∧ detect_fixed_widths sampleFixedWidthLines 100 = some [some 2, some 2, none] :=
  ⟨detect_fixed_widths_shape, by decide⟩

/-- C2 counterexample: on the sample AA&nbsp;&nbsp;&nbsp;1 / BB&nbsp;&nbsp;&nbsp;2
the claim predicts a single boundary at position 2 plus the final open
column (two columns per row, widths [2, None]); the code instead returns
[2, 2, None] — three width entries, hence three columns per row. -/
theorem detect_fixed_widths_two_column_cex :
    detect_fixed_widths sampleFixedWidthLines 100 ≠ some [some 2, none]
    ∧ (detect_fixed_widths sampleFixedWidthLines 100).map List.length = some 3 := by
  decide

/-- Witness for C2: the general shape statement applied at the concrete
sample and its concrete output. -/
theorem detect_fixed_widths_amended_witness :
    ∃ core : List Nat,
      ([some 2, some 2, none] : List (Option Nat)) = core.map some ++ [none]
        ∧ ∀ w ∈ core, 1 < w :=
  detect_fixed_widths_amended.1 sampleFixedWidthLines 100 [some 2, some 2, none] (by decide)

/-! ## Lemmas: the data cleaner -/

theorem prepObjVals_eq (vs : List (Option (List Char))) :
    prepObjVals vs = vs.map prepElem := by
  unfold prepObjVals
  rw [List.map_map]
  apply List.map_congr_left
  intro v hv
  cases v with
  | none => rfl
  | some s =>
    by_cases h : pyStrip s = []
    · simp [prepElem, h]
    · simp [prepElem, h]

theorem prepElem_idem (v : Option (List Char)) : prepElem (prepElem v) = prepElem v := by
  cases v with
  | none => rfl
  | some s =>
    rw [prepElem]
    by_cases h : pyStrip s = []
    · rw [if_pos h]; rfl
    · rw [if_neg h, prepElem]
      rw [pyStrip_idem, if_neg h]

theorem prepObjVals_idem (vs : List (Option (List Char))) :
    prepObjVals (prepObjVals vs) = prepObjVals vs := by
  rw [prepObjVals_eq, prepObjVals_eq, List.map_map]
  apply List.map_congr_left
  intro v _
  exact prepElem_idem v

theorem prepObjVals_length (vs : List (Option (List Char))) :
    (prepObjVals vs).length = vs.length := by
  simp [prepObjVals]

theorem cleanCol_obj_eq {α : Type} (parse : List Char → Option α)
    (vs : List (Option (List Char))) :
    cleanCol parse (Col.obj vs) = coerceNumericCol parse (Col.obj (prepObjVals vs)) := rfl

theorem cleanCol_numeric_eq {α : Type} (parse : List Char → Option α)
    (vs : List (Option α)) : cleanCol parse (Col.numeric vs) = Col.numeric vs := rfl

theorem cleanCol_idem {α : Type} (parse : List Char → Option α) (c : Col α) :
    cleanCol parse (cleanCol parse c) = cleanCol parse c := by
  cases c with
  | numeric vs => rfl
  | obj vs =>
    rw [cleanCol_obj_eq]
    show cleanCol parse (coerceNumericCol parse (Col.obj (prepObjVals vs))) = _
    rw [coerceNumericCol]
    by_cases hc : 2 * ((prepObjVals vs).map (fun v => v.bind parse)).countP
        (fun v => v.isSome) > (prepObjVals vs).length
    · rw [if_pos hc]
      rfl
    · rw [if_neg hc, cleanCol_obj_eq, prepObjVals_idem, coerceNumericCol, if_neg hc]

theorem clean_data_eq_map {α : Type} (parse : List Char → Option α)
    (t : List (List Char × Col α)) :
    clean_data parse t = t.map (fun p => (p.1, cleanCol parse p.2)) := rfl

/-- C7: `clean_data` is idempotent — trimming, empty-string-to-NaN
replacement and the majority-vote numeric coercion all reach a fixed point
after one application, for every table and every numeric parse. -/
theorem clean_data_idempotent (α : Type) (parse : List Char → Option α)
    (t : List (List Char × Col α)) :
    clean_data parse (clean_data parse t) = clean_data parse t := by
  simp only [clean_data_eq_map, List.map_map]
  apply List.map_congr_left
  intro p _
  simp only [Function.comp_apply]
  rw [cleanCol_idem]

/-- C1 (amended): the column-wide coercion vote in `clean_data` compares
the count of cells that parse as numeric (taken after trimming and
empty-to-NaN replacement, with NaN cells never parsing) against half the
TOTAL row count, not half the count of non-null cells: a text column is
replaced by its numeric parse exactly when `2 * parsedCount > rowCount`,
and is otherwise left as (cleaned) text; in either case the decision is
column-wide, applied per column by `clean_data`. -/
theorem clean_data_threshold_amended (α : Type) (parse : List Char → Option α)
    (vs : List (Option (List Char))) :
    (2 * ((prepObjVals vs).map (fun v => v.bind parse)).countP (fun v => v.isSome)
        > vs.length →
      cleanCol parse (Col.obj vs)
        = Col.numeric ((prepObjVals vs).map (fun v => v.bind parse)))
    ∧ (2 * ((prepObjVals vs).map (fun v => v.bind parse)).countP (fun v => v.isSome)
        ≤ vs.length →
      cleanCol parse (Col.obj vs) = Col.obj (prepObjVals vs))
    ∧ (∀ t : List (List Char × Col α),
        clean_data parse t = t.map (fun p => (p.1, cleanCol parse p.2))) := by
  refine ⟨?_, ?_, fun t => rfl⟩
  · intro h
    rw [cleanCol_obj_eq, coerceNumericCol,
      if_pos (by rw [prepObjVals_length]; exact h)]
  · intro h
    rw [cleanCol_obj_eq, coerceNumericCol,
      if_neg (by rw [prepObjVals_length]; omega)]

/-- C1 counterexample: in the two-row column [NaN, 1] every non-null
value (one of one, 100 percent) parses as numeric, so the claim requires
the column to be replaced by its numeric parse; the code compares against
the total row count (1 of 2 — not a majority) and leaves the column as
text, unchanged. -/
theorem clean_data_nonnull_ratio_cex :
    2 * (([none, some ['1']] : List (Option (List Char))).filterMap id).countP
        (fun s => (natParse s).isSome)
      > (([none, some ['1']] : List (Option (List Char))).filterMap id).length
    ∧ clean_data natParse [(['c'], Col.obj [none, some ['1']])]
        = [(['c'], Col.obj [none, some ['1']])]
    ∧ Col.obj [none, some ['1']]
        ≠ (Col.numeric (([none, some ['1']] : List (Option (List Char))).map
            (fun v => v.bind natParse))) := by
  decide

/-- Witness for C1: a two-row column [1, 2] where both cells parse
(2 of 2 exceeds half the rows) is replaced by its numeric parse. -/
theorem clean_data_threshold_witness :
    2 * ((prepObjVals [some ['1'], some ['2']]).map
        (fun v => v.bind natParse)).countP (fun v => v.isSome)
      > ([some ['1'], some ['2']] : List (Option (List Char))).length
    ∧ cleanCol natParse (Col.obj [some ['1'], some ['2']])
        = Col.numeric ((prepObjVals [some ['1'], some ['2']]).map
            (fun v => v.bind natParse)) :=
  ⟨by decide, (clean_data_threshold_amended Nat natParse [some ['1'], some ['2']]).1
    (by decide)⟩

/-! ## Lemmas: column-name sanitization -/

theorem sanChar_word (c : Char) : isWordChar (sanChar c) = true := by
  rw [sanChar]
  by_cases h : isWordChar c = true
  · rw [if_pos h]; exact h
  · rw [if_neg h]; decide

theorem map_sanChar_mem {name : List Char} {c : Char}
    (h : c ∈ name.map sanChar) : isWordChar c = true := by
  rcases List.mem_map.mp h with ⟨a, _, ha⟩
  rw [← ha]
  exact sanChar_word a

theorem map_sanChar_fixed :
    ∀ {s : List Char}, (∀ c ∈ s, isWordChar c = true) → s.map sanChar = s := by
  intro s
  induction s with
  | nil => intro _; rfl
  | cons c s ih =>
    intro h
    rw [List.map_cons, ih (fun x hx => h x (List.mem_cons_of_mem c hx))]
    rw [sanChar, if_pos (h c (List.mem_cons_self c s))]

theorem clean_col_name_eq (name : List Char) :
    clean_col_name name =
      if stripBoth (fun c => c == '_') (name.map sanChar) = [] then columnFallbackName
      else stripBoth (fun c => c == '_') (name.map sanChar) := rfl

/-- C6: column-name sanitization is total (every output is a nonempty
string of word characters, the fallback Column included), idempotent, and
sends the scenario-2 name Item-space-hash to Item. -/
theorem clean_col_name_spec (name : List Char) :
    (clean_col_name name ≠ [] ∧ ∀ c ∈ clean_col_name name, isWordChar c = true)
    ∧ clean_col_name (clean_col_name name) = clean_col_name name
    ∧ clean_col_name ['I', 't', 'e', 'm', ' ', '#'] = ['I', 't', 'e', 'm'] := by
  refine ⟨?_, ?_, by decide⟩
  · by_cases h : stripBoth (fun c => c == '_') (name.map sanChar) = []
    · rw [clean_col_name_eq, if_pos h]
      exact ⟨by decide, by decide⟩
    · rw [clean_col_name_eq, if_neg h]
      exact ⟨h, fun c hc => map_sanChar_mem (stripBoth_mem _ hc)⟩
  · by_cases h : stripBoth (fun c => c == '_') (name.map sanChar) = []
    · rw [clean_col_name_eq name, if_pos h]
      decide
    · rw [clean_col_name_eq name, if_neg h]
      rw [clean_col_name_eq]
      have hw : ∀ c ∈ stripBoth (fun c => c == '_') (name.map sanChar),
          isWordChar c = true :=
        fun c hc => map_sanChar_mem (stripBoth_mem _ hc)
      rw [map_sanChar_fixed hw]
      have hself : stripBoth (fun c => c == '_')
          (stripBoth (fun c => c == '_') (name.map sanChar))
          = stripBoth (fun c => c == '_') (name.map sanChar) :=
        stripBoth_idem _ _
      rw [hself, if_neg h]

/-- Witness for C6: the sanitized name a-dash-b is the nonempty word-only
string a underscore b. -/
theorem clean_col_name_spec_witness :
    clean_col_name ['a', '-', 'b'] ≠ []
    ∧ ∀ c ∈ clean_col_name ['a', '-', 'b'], isWordChar c = true :=
  (clean_col_name_spec ['a', '-', 'b']).1

/-! ## Orchestration and encoding detection -/


/-- C5: `auto_read` uses the detected encoding exactly when none is already
known, attempts the delimited reader first (returning its table on
success), falls back to the fixed-width reader on any failure, and raises
the no-readable-format error exactly when both strategies fail. -/
theorem auto_read_spec (τ : Type) (env : AutoReadEnv τ) (encoding : Option (List Char)) :
    (auto_read env none = auto_read env (some env.detectedEncoding))
    ∧ (∀ t, env.readDelimited (encoding.getD env.detectedEncoding) = .ok t →
        auto_read env encoding = .ok t)
    ∧ (∀ e t, env.readDelimited (encoding.getD env.detectedEncoding) = .error e →
        env.readFixedWidth (encoding.getD env.detectedEncoding) = .ok t →
        auto_read env encoding = .ok t)
    ∧ (∀ e e2, env.readDelimited (encoding.getD env.detectedEncoding) = .error e →
        env.readFixedWidth (encoding.getD env.detectedEncoding) = .error e2 →
        auto_read env encoding = .error PyErr.noReadableFormat)
    ∧ (∀ err, auto_read env encoding = .error err →
        err = PyErr.noReadableFormat
          ∧ ∃ e e2, env.readDelimited (encoding.getD env.detectedEncoding) = .error e
            ∧ env.readFixedWidth (encoding.getD env.detectedEncoding) = .error e2) := by
  refine ⟨rfl, ?_, ?_, ?_, ?_⟩
  · intro t h
    rw [auto_read]
    rw [h]
  · intro e t h1 h2
    rw [auto_read]
    rw [h1, h2]
  · intro e e2 h1 h2
    rw [auto_read]
    rw [h1, h2]
  · intro err h
    rw [auto_read] at h
    cases hd : env.readDelimited (encoding.getD env.detectedEncoding) with
    | ok t => rw [hd] at h; cases h
    | error e =>
      rw [hd] at h
      cases hf : env.readFixedWidth (encoding.getD env.detectedEncoding) with
      | ok t => rw [hf] at h; cases h
      | error e2 =>
        rw [hf] at h
        injection h with h2
        subst h2
        exact ⟨rfl, e, e2, rfl, rfl⟩

/-- Witness for C5: an environment whose two readers both fail makes
`auto_read` raise the no-readable-format error. -/
theorem auto_read_spec_witness :
    auto_read (AutoReadEnv.mk latin1 (fun _ => .error (.exnTag 0))
        (fun _ => .error (.exnTag 1)) : AutoReadEnv Nat) none
      = .error PyErr.noReadableFormat :=
  (auto_read_spec Nat
      (AutoReadEnv.mk latin1 (fun _ => .error (.exnTag 0)) (fun _ => .error (.exnTag 1)))
      none).2.2.2.1 (.exnTag 0) (.exnTag 1) rfl rfl

/-- C8: `detect_encoding` returns the classifier label exactly when the
classifier returned one with confidence strictly above 0.7; with
confidence at most 0.7, a null label, or a raised exception it returns the
byte-preserving latin-1 fallback, so it never fails; and under the
classifier contract (a confidently detected label can decode the sample it
analysed) together with latin-1 decoding any byte sequence, the returned
label can always decode the sample. -/
theorem detect_encoding_spec (canDecode : List Char → List Nat → Prop)
    (sample : List Nat) (run : ChardetRun)
    (hlatin : ∀ bs, canDecode latin1 bs)
    (hchardet : ∀ enc conf, run = .ok (some enc) conf → conf > 7 / 10 →
      canDecode enc sample) :
    canDecode (detect_encoding run) sample
    ∧ (∀ enc conf, run = .ok (some enc) conf → conf > 7 / 10 →
        detect_encoding run = enc)
    ∧ (∀ enc conf, run = .ok (some enc) conf → conf ≤ 7 / 10 →
        detect_encoding run = latin1)
    ∧ (∀ conf, run = .ok none conf → detect_encoding run = latin1)
    ∧ (∀ e, run = .raised e → detect_encoding run = latin1) := by
  refine ⟨?_, ?_, ?_, ?_, ?_⟩
  · cases run with
    | raised e => exact hlatin sample
    | ok det conf =>
      cases det with
      | none => exact hlatin sample
      | some enc =>
        rw [detect_encoding]
        by_cases h : conf > 7 / 10
        · rw [if_pos h]
          exact hchardet enc conf rfl h
        · rw [if_neg h]
          exact hlatin sample
  · intro enc conf h hconf
    subst h
    rw [detect_encoding, if_pos hconf]
  · intro enc conf h hconf
    subst h
    rw [detect_encoding, if_neg (by exact not_lt.mpr hconf)]
  · intro conf h
    subst h
    rfl
  · intro e h
    subst h
    rfl

/-- Witness for C8: a run detecting utf-8 at confidence 0.9 under the
trivial decodability relation. -/
theorem detect_encoding_spec_witness :
    detect_encoding (.ok (some ['u', 't', 'f', '-', '8']) (9 / 10))
      = ['u', 't', 'f', '-', '8'] :=
  (detect_encoding_spec (fun _ _ => True) []
      (.ok (some ['u', 't', 'f', '-', '8']) (9 / 10))
      (fun _ => trivial) (fun _ _ _ _ => trivial)).2.1
    ['u', 't', 'f', '-', '8'] (9 / 10) rfl (by norm_num)

/-! ## Lemmas: DBF record conversion -/

theorem convertFields_fst {α : Type} (record : List Char → FieldOutcome α) (i : Nat) :
    ∀ (fs : List (List Char)) (errs : List FieldErr),
      (convertFields record i fs errs).1 = fs.map (fun f => (f, fieldValue (record f))) := by
  intro fs
  induction fs with
  | nil => intro errs; rfl
  | cons f fs ih =>
    intro errs
    rw [convertFields]
    cases hr : record f with
    | ok v =>
      simp only []
      rw [List.map_cons, ih errs]
      rw [hr]
      rfl
    | raised t =>
      simp only []
      rw [List.map_cons, ih _]
      rw [hr]
      rfl

theorem convertFields_errs_le {α : Type} (record : List Char → FieldOutcome α) (i : Nat) :
    ∀ (fs : List (List Char)) (errs : List FieldErr),
      errs.length ≤ maxRetainedErrors →
      (convertFields record i fs errs).2.length ≤ maxRetainedErrors := by
  intro fs
  induction fs with
  | nil => intro errs h; exact h
  | cons f fs ih =>
    intro errs h
    rw [convertFields]
    cases hr : record f with
    | ok v => exact ih errs h
    | raised t =>
      apply ih
      by_cases hlen : errs.length < maxRetainedErrors
      · rw [if_pos hlen]
        rw [List.length_append]
        simpa using hlen
      · rw [if_neg hlen]
        exact h

theorem convertRecords_fst {α : Type} (fields : List (List Char)) :
    ∀ (rs : List (List Char → FieldOutcome α)) (i : Nat) (errs : List FieldErr),
      (convertRecords fields rs i errs).1
        = rs.map (fun r => fields.map (fun f => (f, fieldValue (r f)))) := by
  intro rs
  induction rs with
  | nil => intro i errs; rfl
  | cons r rs ih =>
    intro i errs
    rw [convertRecords]
    simp only []
    rw [List.map_cons, ih, convertFields_fst]

theorem convertRecords_errs_le {α : Type} (fields : List (List Char)) :
    ∀ (rs : List (List Char → FieldOutcome α)) (i : Nat) (errs : List FieldErr),
      errs.length ≤ maxRetainedErrors →
      (convertRecords fields rs i errs).2.length ≤ maxRetainedErrors := by
  intro rs
  induction rs with
  | nil => intro i errs h; exact h
  | cons r rs ih =>
    intro i errs h
    rw [convertRecords]
    exact ih _ _ (convertFields_errs_le r i fields errs h)

/-- C9: in the DBF reader every record of the input yields exactly one
output record (the file is never aborted), every declared field of every
record gets a value — the converted value on success, null on a raised
conversion, other fields unaffected (the record is never aborted) — and
the retained error sample, hence the reported error total, never exceeds
the fixed bound of five. -/
theorem convert_dbf_properly_spec (α : Type) (fields : List (List Char))
    (recs : List (List Char → FieldOutcome α)) :
    (convert_dbf_properly fields recs).1
      = recs.map (fun r => fields.map (fun f => (f, fieldValue (r f))))
    ∧ (convert_dbf_properly fields recs).2.length ≤ maxRetainedErrors :=
  ⟨convertRecords_fst fields recs 0 [],
   convertRecords_errs_le fields recs 0 [] (by decide)⟩
/-! ## Lemmas: the export fallback chain and its path -/

theorem replaceGo_nil : ∀ fuel, replaceGo fuel [] = [] := by
  intro fuel
  cases fuel with
  | zero => rfl
  | succ f => rfl

theorem replaceGo_id :
    ∀ (fuel : Nat) (l : List Char), hasSubXlsx l = false → replaceGo fuel l = l := by
  intro fuel
  induction fuel with
  | zero => intro l _; rfl
  | succ fuel ih =>
    intro l h
    cases l with
    | nil => rfl
    | cons c rest =>
      rw [hasSubXlsx] at h
      rcases Bool.or_eq_false_iff.mp h with ⟨h1, h2⟩
      show (if startsWithXlsx (c :: rest) then csvExt ++ replaceGo fuel (rest.drop 4)
        else c :: replaceGo fuel rest) = c :: rest
      rw [if_neg (by simp [h1]), ih rest h2]

theorem pyReplaceXlsxCsv_id (l : List Char) (h : hasSubXlsx l = false) :
    pyReplaceXlsxCsv l = l :=
  replaceGo_id l.length l h

theorem startsWith_append_false (c : Char) (b : List Char)
    (h : startsWithXlsx (c :: b) = false) :
    startsWithXlsx (c :: (b ++ xlsxExt)) = false := by
  match b with
  | [] => simp [startsWithXlsx, xlsxExt]
  | [b1] => simp [startsWithXlsx, xlsxExt]
  | [b1, b2] => simp [startsWithXlsx, xlsxExt]
  | [b1, b2, b3] => simp [startsWithXlsx, xlsxExt]
  | b1 :: b2 :: b3 :: b4 :: bt => exact h

theorem replaceGo_append :
    ∀ (fuel : Nat) (base : List Char), base.length + 5 ≤ fuel →
      hasSubXlsx base = false → replaceGo fuel (base ++ xlsxExt) = base ++ csvExt := by
  intro fuel
  induction fuel with
  | zero => intro base hlen _; omega
  | succ fuel ih =>
    intro base hlen h
    cases base with
    | nil =>
      show (if startsWithXlsx ('.' :: ['x', 'l', 's', 'x']) then
          csvExt ++ replaceGo fuel ((['x', 'l', 's', 'x'] : List Char).drop 4)
        else '.' :: replaceGo fuel ['x', 'l', 's', 'x']) = [] ++ csvExt
      rw [if_pos (by decide)]
      show csvExt ++ replaceGo fuel [] = [] ++ csvExt
      rw [replaceGo_nil]
      simp
    | cons c b =>
      rw [hasSubXlsx] at h
      rcases Bool.or_eq_false_iff.mp h with ⟨h1, h2⟩
      show (if startsWithXlsx (c :: (b ++ xlsxExt)) then
          csvExt ++ replaceGo fuel ((b ++ xlsxExt).drop 4)
        else c :: replaceGo fuel (b ++ xlsxExt)) = (c :: b) ++ csvExt
      rw [if_neg (by simp [startsWith_append_false c b h1])]
      rw [ih b (by simp at hlen; omega) h2]
      rfl

theorem pyReplaceXlsxCsv_append (base : List Char) (h : hasSubXlsx base = false) :
    pyReplaceXlsxCsv (base ++ xlsxExt) = base ++ csvExt := by
  apply replaceGo_append
  · simp [xlsxExt]
  · exact h



/-- C4: given a writable directory (the CSV write succeeds), `export`
never raises: a failure of the named-sheet spreadsheet write is retried
without the sheet name, a second failure falls back to writing a
delimited text file with utf-8-sig (UTF-8 plus byte-order mark) encoding
at the output path with the spreadsheet extension replaced by the text
extension — for a well-formed output path, the same base with the text
extension — and the outcome reports that substitute path. -/
theorem export_to_excel_fallback_spec (env : ExportEnv) (p base : List Char) :
    (env.toCsv = .ok () → ∃ o, export_to_excel env p = .ok o)
    ∧ (env.toExcelNamed = .ok () → export_to_excel env p = .ok (.excelNamedSheet p))
    ∧ (∀ e, env.toExcelNamed = .error e → env.toExcelBasic = .ok () →
        export_to_excel env p = .ok (.excelBasic p))
    ∧ (∀ e e2, env.toExcelNamed = .error e → env.toExcelBasic = .error e2 →
        env.toCsv = .ok () →
        export_to_excel env p = .ok (.csvFallback (pyReplaceXlsxCsv p) utf8sig))
    ∧ (p = base ++ xlsxExt → hasSubXlsx base = false →
        pyReplaceXlsxCsv p = base ++ csvExt) := by
  refine ⟨?_, ?_, ?_, ?_, ?_⟩
  · intro hcsv
    cases hn : env.toExcelNamed with
    | ok u => exact ⟨.excelNamedSheet p, by cases u; simp [export_to_excel, hn]⟩
    | error e =>
      cases hb : env.toExcelBasic with
      | ok u => exact ⟨.excelBasic p, by cases u; simp [export_to_excel, hn, hb]⟩
      | error e2 =>
        exact ⟨.csvFallback (pyReplaceXlsxCsv p) utf8sig,
          by simp [export_to_excel, hn, hb, hcsv]⟩
  · intro hn
    simp [export_to_excel, hn]
  · intro e hn hb
    simp [export_to_excel, hn, hb]
  · intro e e2 hn hb hcsv
    simp [export_to_excel, hn, hb, hcsv]
  · intro hp hbase
    rw [hp]
    exact pyReplaceXlsxCsv_append base hbase

/-- Witness for C4: with both spreadsheet writes failing and the CSV write
succeeding, exporting to out.xlsx produces the fallback at out.csv with
utf-8-sig encoding. -/
theorem export_to_excel_fallback_witness :
    export_to_excel
        (ExportEnv.mk (.error (.exnTag 0)) (.error (.exnTag 1)) (.ok ()))
        (['o', 'u', 't'] ++ xlsxExt)
      = .ok (.csvFallback (['o', 'u', 't'] ++ csvExt) utf8sig) := by
  have h := export_to_excel_fallback_spec
      (ExportEnv.mk (.error (.exnTag 0)) (.error (.exnTag 1)) (.ok ()))
      (['o', 'u', 't'] ++ xlsxExt) ['o', 'u', 't']
  have h4 := h.2.2.2.1 (.exnTag 0) (.exnTag 1) rfl rfl rfl
  have h5 := h.2.2.2.2 rfl (by decide)
  rw [h5] at h4
  exact h4

/-- C10: the text-file fallback of both exporters writes to the path
obtained by replacing every occurrence of .xlsx in the output path with
.csv; when the output path contains no occurrence of .xlsx, the fallback
path is the output path itself. -/
theorem csv_fallback_path_spec :
    (∀ p, hasSubXlsx p = false → pyReplaceXlsxCsv p = p)
    ∧ (∀ (env : ExportEnv) (p : List Char) (e e2 : PyErr),
        env.toExcelNamed = .error e → env.toExcelBasic = .error e2 →
        env.toCsv = .ok () →
        export_to_excel env p = .ok (.csvFallback (pyReplaceXlsxCsv p) utf8sig))
    ∧ pyReplaceXlsxCsv (['a'] ++ xlsxExt ++ ['b'] ++ xlsxExt)
        = ['a'] ++ csvExt ++ ['b'] ++ csvExt := by
  refine ⟨pyReplaceXlsxCsv_id, ?_, by decide⟩
  intro env p e e2 hn hb hcsv
  simp [export_to_excel, hn, hb, hcsv]

/-- Witness for C10: a path with no .xlsx occurrence (out.dat) is left
unchanged by the fallback-path computation. -/
theorem csv_fallback_path_witness :
    pyReplaceXlsxCsv ['o', 'u', 't', '.', 'd', 'a', 't']
      = ['o', 'u', 't', '.', 'd', 'a', 't'] :=
  csv_fallback_path_spec.1 ['o', 'u', 't', '.', 'd', 'a', 't'] (by decide)

end DatToExcel
